import Mathlib

/-!
Verification development for the `biofile` library: typed references to
bioinformatics files with eager validation (`Biofile`), homogeneous groups of
such references (`BiofileGroup`), and sets of groups aligned by filename
prefix tokens (`MatchedPrefixGroup`).

The definitions below are a shallow embedding of `biofile/file.py`,
`biofile/group.py` and `biofile/matched_prefix.py`.  The filesystem is
modelled as a partial map from path strings to metadata; pathlib's
`suffix` / `suffixes` are embedded over character lists.  External
collaborators from the `fmbiopy` package (`is_empty`, `add_suffix`,
`all_equal`, the prefix-token extractor) are modelled from the spec's
collaborator contract and marked as such.
-/

/-- Metadata the validation checks consult for an existing path. -/
structure FileInfo where
  isDir : Bool
  size : Nat
deriving DecidableEq

/-- A filesystem snapshot: `none` means the path does not exist. -/
def Fs : Type := String → Option FileInfo

/-- `Path.is_dir()`: true only for an existing directory. -/
def is_dir (fs : Fs) (p : String) : Bool :=
  match fs p with
  | some info => info.isDir
  | none => false

/-- Modelled from the spec: the external collaborator
`exists_and_nonempty(path)` (fmbiopy `is_empty`); a missing path counts as
empty, an existing path is empty exactly when its size is zero. -/
def is_empty (fs : Fs) (p : String) : Bool :=
  match fs p with
  | some info => decide (info.size = 0)
  | none => true

/-- The final path component (text after the last slash). -/
def basenameChars (p : String) : List Char :=
  (p.toList.reverse.takeWhile (fun c => decide (c ≠ '/'))).reverse

/-- Python `name.split('.')` over characters. -/
def splitOnDot : List Char → List (List Char)
  | [] => [[]]
  | c :: cs =>
    if c = '.' then [] :: splitOnDot cs
    else
      match splitOnDot cs with
      | [] => [[c]]
      | g :: gs => (c :: g) :: gs

/-- `PurePath.suffixes`: empty when the name ends in a dot, otherwise the
dot-started segments of the name after stripping leading dots. -/
def pySuffixes (name : List Char) : List (List Char) :=
  if name.getLast? = some '.' then []
  else ((splitOnDot (name.dropWhile (fun c => decide (c = '.')))).tail).map
    (fun s => '.' :: s)

/-- `PurePath.suffix`: the final dot-started segment, provided the last dot
is neither the first nor the last character of the name. -/
def pySuffix (name : List Char) : List Char :=
  if '.' ∈ name then
    let rest := (name.reverse.takeWhile (fun c => decide (c ≠ '.'))).reverse
    if rest.length + 1 < name.length ∧ rest ≠ [] then '.' :: rest else []
  else []

/-- `Biofile._get_extension`: for a gzipped binding, the last two suffix
segments joined; otherwise the final suffix only. -/
def getExtension (path : String) (gzipped : Bool) : String :=
  let name := basenameChars path
  if gzipped then
    let ss := pySuffixes name
    String.mk (List.flatten (ss.drop (ss.length - 2)))
  else String.mk (pySuffix name)

/-- Python `str.lower()` restricted to the ASCII range used by the library. -/
def lowerStr (s : String) : String :=
  String.mk (s.toList.map Char.toLower)

/-- Does `needle` occur at the head of the list? -/
def chStarts : List Char → List Char → Bool
  | [], _ => true
  | _ :: _, [] => false
  | a :: as, b :: bs => decide (a = b) && chStarts as bs

/-- Does `needle` occur anywhere inside the haystack? -/
def containsSub (needle : List Char) : List Char → Bool
  | [] => needle.isEmpty
  | c :: cs => chStarts needle (c :: cs) || containsSub needle cs

/-- Python's `needle in hay` on strings. -/
def strContains (hay needle : String) : Bool :=
  containsSub needle.toList hay.toList

/-- A file category: the class-level `input_type` and `extensions` data of a
`Biofile` subclass. -/
structure FileCategory where
  input_type : String
  extensions : List String
deriving DecidableEq

def BiofileAny : FileCategory := ⟨"ANY", ["ANY"]⟩
def Fastq : FileCategory := ⟨"fastq", [".fastq", ".fq", ".fastq.gz", ".fq.gz"]⟩
def FwdFastq : FileCategory := ⟨"fastq", [".fastq", ".fq", ".fastq.gz", ".fq.gz"]⟩
def RevFastq : FileCategory := ⟨"fastq", [".fastq", ".fq", ".fastq.gz", ".fq.gz"]⟩
def UnpairedFastq : FileCategory := ⟨"fastq", [".fastq", ".fq", ".fastq.gz", ".fq.gz"]⟩
def Fasta : FileCategory := ⟨"fasta", [".fasta", ".fa", "mfa", "fna"]⟩
def SamtoolsFAIndex : FileCategory := ⟨"fai", [".fai"]⟩
def Sam : FileCategory := ⟨"sam", [".sam"]⟩
def Bam : FileCategory := ⟨"bam", [".bam"]⟩
def Unzipped : FileCategory := ⟨"ANY", ["ANY"]⟩
def TSV : FileCategory := ⟨"tsv", [".tsv"]⟩
def CentrifugeOutput : FileCategory := ⟨"tsv", [".tsv"]⟩
def Hits : FileCategory := ⟨"tsv", [".tsv"]⟩
def Txt : FileCategory := ⟨"txt", [".txt"]⟩
def Html : FileCategory := ⟨"html", [".html"]⟩
def FastQCReport : FileCategory := ⟨"html", [".html"]⟩
def Zip : FileCategory := ⟨"zip", [".zip"]⟩
def Hist : FileCategory := ⟨"txt", [".txt"]⟩
def Adapters : FileCategory := ⟨"fasta", [".fasta", ".fa", "mfa", "fna"]⟩
def GzippedCat : FileCategory := ⟨"gz", [".gz"]⟩
def CentrifugeDBCat : FileCategory := ⟨"centrifugedb", ["ANY"]⟩

/-- Which validation behaviour a binding uses: the plain `Biofile` logic
parametrized by category data, the `Gzipped` overrides, or the
`CentrifugeDB` overrides. -/
inductive BiofileKind where
  | standard (cat : FileCategory)
  | gzippedFile
  | centrifugeDB
deriving DecidableEq

def kindCategory : BiofileKind → FileCategory
  | .standard cat => cat
  | .gzippedFile => GzippedCat
  | .centrifugeDB => CentrifugeDBCat

/-- `Gzipped.__init__` forces `gzipped=True`; other classes keep the
caller's flag. -/
def effectiveGzip (kind : BiofileKind) (gz : Bool) : Bool :=
  match kind with
  | .gzippedFile => true
  | _ => gz

/-- The instance state of a `Biofile`: stored parameters, the cached
resolved extension and the `validated` flag. -/
structure BiofileState where
  kind : BiofileKind
  path : String
  gzipped : Bool
  possibly_empty : Bool
  extension : String
  validated : Bool
deriving DecidableEq

/-- The validation failure taxonomy.  `MissingFileError` is modelled from
the spec's error table only: the source defines no such exception class. -/
inductive VErr where
  | DirectoryError (p : String)
  | EmptyFileError (p : String)
  | GzipStatusError (p : String)
  | FileExtensionError (p : String)
  | MissingFileError (p : String)
  | EmptyGroupError
  | FileExtensionsNotSameError (ps : List String)
  | DuplicateFilegroupError (gs : List (List String))
  | GroupLengthError (gs : List (List String))
  | PrefixMatchError (gs : List (List String))
deriving DecidableEq

/-- Modelled from the spec: `with_suffix_appended(path, suffix)` (fmbiopy
`add_suffix`) appends a literal suffix to the path string. -/
def add_suffix (p : String) (s : String) : String := p ++ s

/-- The three derived sibling index paths of a `CentrifugeDB` binding. -/
def centrifugeIdx (p : String) : List String :=
  [add_suffix p ".1.cf", add_suffix p ".2.cf", add_suffix p ".3.cf"]

/-- `Biofile._check_not_dir`. -/
def check_not_dir (fs : Fs) (b : BiofileState) : Option VErr :=
  if is_dir fs b.path then some (.DirectoryError b.path) else none

/-- `Biofile._check_file_not_empty`, with the `CentrifugeDB` override that
inspects the derived sibling paths instead of the primary path. -/
def check_file_not_empty (fs : Fs) (b : BiofileState) : Option VErr :=
  match b.kind with
  | .centrifugeDB =>
    if b.possibly_empty then none
    else if (centrifugeIdx b.path).any (fun q => is_empty fs q) then
      some (.EmptyFileError b.path)
    else none
  | _ =>
    if b.possibly_empty then none
    else if is_empty fs b.path then some (.EmptyFileError b.path) else none

/-- `Biofile._check_gzip`, with the `Gzipped` override that skips the
check entirely. -/
def check_gzip (b : BiofileState) : Option VErr :=
  match b.kind with
  | .gzippedFile => none
  | _ =>
    if b.gzipped then
      if strContains b.extension ".gz" then none
      else some (.GzipStatusError b.path)
    else
      if strContains b.extension "gz" then some (.GzipStatusError b.path)
      else none

/-- Acceptance test of `Biofile._check_extension`: pass when the category
accepts anything or the lower-cased extension is in the accepted list. -/
def extensionOk (exts : List String) (ext : String) : Bool :=
  decide (exts = ["ANY"]) || decide (lowerStr ext ∈ exts)

/-- The extension test actually applied per kind: `Gzipped` replaces the
membership test with a `.gz`-containment test on the lower-cased extension. -/
def extCheckPasses (kind : BiofileKind) (ext : String) : Bool :=
  match kind with
  | .gzippedFile => strContains (lowerStr ext) ".gz"
  | k => extensionOk (kindCategory k).extensions ext

/-- `Biofile._check_extension` (with the `Gzipped` override). -/
def check_extension (b : BiofileState) : Option VErr :=
  if extCheckPasses b.kind b.extension then none
  else some (.FileExtensionError b.path)

/-- `Biofile.validate`: run the four checks in order, first failure wins;
only after all pass is the `validated` flag set.  The returned state is the
object after the call; the `Option VErr` is the exception, if any. -/
def Biofile.validate (fs : Fs) (b : BiofileState) : BiofileState × Option VErr :=
  match check_not_dir fs b with
  | some e => (b, some e)
  | none =>
    match check_file_not_empty fs b with
    | some e => (b, some e)
    | none =>
      match check_gzip b with
      | some e => (b, some e)
      | none =>
        match check_extension b with
        | some e => (b, some e)
        | none => ({ b with validated := true }, none)

/-- `Biofile.__init__`: store the parameters, resolve the extension, then
validate eagerly; a raised check aborts construction. -/
def mkBiofile (fs : Fs) (kind : BiofileKind) (path : String)
    (gzipped : Bool) (possibly_empty : Bool) : Except VErr BiofileState :=
  let gz := effectiveGzip kind gzipped
  let b0 : BiofileState :=
    { kind := kind, path := path, gzipped := gz, possibly_empty := possibly_empty,
      extension := getExtension path gz, validated := false }
  match Biofile.validate fs b0 with
  | (b, none) => .ok b
  | (_, some e) => .error e

/-- Modelled from the spec: the external collaborator `all_equal(sequence)`
(fmbiopy `all_equal`): every element equals the first. -/
def all_equal {α : Type} [DecidableEq α] : List α → Bool
  | [] => true
  | x :: xs => xs.all (fun y => decide (y = x))

/-- The instance state of a `BiofileGroup`. -/
structure BiofileGroupState where
  paths : List String
  kind : BiofileKind
  biofiles : List BiofileState
  validated : Bool
deriving DecidableEq

instance : Inhabited BiofileGroupState :=
  ⟨{ paths := [], kind := .standard BiofileAny, biofiles := [], validated := false }⟩

/-- The member-revalidation loop of `BiofileGroup.validate`: already
validated members are skipped, others are re-validated; a raise aborts the
loop leaving the remaining members untouched. -/
def validateMembers (fs : Fs) : List BiofileState → List BiofileState × Option VErr
  | [] => ([], none)
  | b :: bs =>
    if b.validated then
      let r := validateMembers fs bs
      (b :: r.1, r.2)
    else
      match Biofile.validate fs b with
      | (b', none) =>
        let r := validateMembers fs bs
        (b' :: r.1, r.2)
      | (b', some e) => (b' :: bs, some e)

/-- `BiofileGroup.validate`: empty-path check, then extension-equality
check, then member revalidation, then set the flag. -/
def BiofileGroup.validate (fs : Fs) (g : BiofileGroupState) :
    BiofileGroupState × Option VErr :=
  if g.paths.isEmpty then (g, some .EmptyGroupError)
  else if all_equal (g.biofiles.map (fun b => b.extension)) then
    match validateMembers fs g.biofiles with
    | (bs, none) => ({ g with biofiles := bs, validated := true }, none)
    | (bs, some e) => ({ g with biofiles := bs }, some e)
  else (g, some (.FileExtensionsNotSameError g.paths))

/-- `BiofileGroup._initialize_biofiles`: construct one `Biofile` per path,
in order, aborting on the first construction failure. -/
def initBiofiles (fs : Fs) (kind : BiofileKind) (gz pe : Bool) :
    List String → Except VErr (List BiofileState)
  | [] => .ok []
  | p :: ps =>
    match mkBiofile fs kind p gz pe with
    | .error e => .error e
    | .ok b =>
      match initBiofiles fs kind gz pe ps with
      | .error e => .error e
      | .ok bs => .ok (b :: bs)

/-- `BiofileGroup.__init__`: eagerly build the member bindings, then run
the group validation. -/
def mkBiofileGroup (fs : Fs) (kind : BiofileKind) (gz pe : Bool)
    (paths : List String) : Except VErr BiofileGroupState :=
  match initBiofiles fs kind gz pe paths with
  | .error e => .error e
  | .ok bs =>
    match BiofileGroup.validate fs
        { paths := paths, kind := kind, biofiles := bs, validated := false } with
    | (g, none) => .ok g
    | (_, some e) => .error e

/-- `BiofileGroup.__eq__`: equal lengths and elementwise equal paths. -/
def groupEq (g1 g2 : BiofileGroupState) : Bool :=
  decide (g1.paths.length = g2.paths.length) &&
    (g1.paths.zip g2.paths).all (fun pq => decide (pq.1 = pq.2))

/-- Modelled from the spec: the external collaborator
`extract_prefix_token(path)` (fmbiopy prefix extractor): the basename up to
its first dot. -/
def prefTok (p : String) : String :=
  String.mk ((basenameChars p).takeWhile (fun c => decide (c ≠ '.')))

/-- The instance state of a `MatchedPrefixGroup`. -/
structure MatchedPrefixGroupState where
  groups : List BiofileGroupState
  validated : Bool
deriving DecidableEq

/-- `MatchedPrefixGroup.__check_files_not_same`: some two distinct
positions hold structurally equal groups. -/
def hasDuplicateGroup (gs : List BiofileGroupState) : Bool :=
  (List.range gs.length).any (fun i =>
    (List.range gs.length).any (fun j =>
      decide (i ≠ j) && groupEq (gs.getD i default) (gs.getD j default)))

/-- The group-revalidation loop of `MatchedPrefixGroup.validate`. -/
def validateGroups (fs : Fs) : List BiofileGroupState → List BiofileGroupState × Option VErr
  | [] => ([], none)
  | g :: gs =>
    match BiofileGroup.validate fs g with
    | (g', none) =>
      let r := validateGroups fs gs
      (g' :: r.1, r.2)
    | (g', some e) => (g' :: gs, some e)

/-- `MatchedPrefixGroup.validate`: duplicate check, length check, prefix
check, then group revalidation (skipped when already validated), then set
the flag. -/
def MatchedPrefixGroup.validate (fs : Fs) (m : MatchedPrefixGroupState) :
    MatchedPrefixGroupState × Option VErr :=
  if hasDuplicateGroup m.groups then
    (m, some (.DuplicateFilegroupError (m.groups.map (fun g => g.paths))))
  else if all_equal (m.groups.map (fun g => g.paths.length)) then
    if all_equal (m.groups.map (fun g => g.paths.map prefTok)) then
      if m.validated then ({ m with validated := true }, none)
      else
        match validateGroups fs m.groups with
        | (gs, none) => ({ groups := gs, validated := true }, none)
        | (gs, some e) => ({ m with groups := gs }, some e)
    else (m, some (.PrefixMatchError (m.groups.map (fun g => g.paths))))
  else (m, some (.GroupLengthError (m.groups.map (fun g => g.paths))))

/-- `MatchedPrefixGroup.__init__`: store the groups and validate eagerly. -/
def mkMatchedPrefixGroup (fs : Fs) (groups : List BiofileGroupState) :
    Except VErr MatchedPrefixGroupState :=
  match MatchedPrefixGroup.validate fs { groups := groups, validated := false } with
  | (m, none) => .ok m
  | (_, some e) => .error e

/-- `MatchedPrefixGroup.__len__`: the length of the first member group. -/
def MatchedPrefixGroup.length (m : MatchedPrefixGroupState) : Nat :=
  match m.groups with
  | [] => 0
  | g :: _ => g.paths.length

/-- Collect a list of optional values, failing if any is missing. -/
def sequenceOpt {α : Type} : List (Option α) → Option (List α)
  | [] => some []
  | none :: _ => none
  | some a :: rest => (sequenceOpt rest).map (fun l => a :: l)

/-- `MatchedPrefixGroup.__getitem__`: the path at position `i` of every
member group, in group order; `none` models the index error raised when
some group is too short. -/
def MatchedPrefixGroup.getItem (m : MatchedPrefixGroupState) (i : Nat) :
    Option (List String) :=
  sequenceOpt (m.groups.map (fun g => g.paths[i]?))

/-- The closed set of `Biofile` subclasses that keep the inherited checks
(`CentrifugeDB` overrides the emptiness check and is treated separately). -/
def categoryRegistry : List FileCategory :=
  [BiofileAny, Fastq, FwdFastq, RevFastq, UnpairedFastq, Fasta, SamtoolsFAIndex,
   Sam, Bam, Unzipped, TSV, CentrifugeOutput, Hits, Txt, Html, FastQCReport,
   Zip, Hist, Adapters]

/-- The validation behaviours of the extension-accepting binding classes. -/
def kindRegistry : List BiofileKind :=
  categoryRegistry.map BiofileKind.standard ++ [BiofileKind.gzippedFile]

/-- The declared gzip flag agrees with the resolved extension, in the sense
of `Biofile._check_gzip`. -/
def gzipConsistent (gz : Bool) (ext : String) : Bool :=
  if gz then strContains ext ".gz" else !(strContains ext "gz")

lemma registry_exts_lower :
    ∀ cat ∈ categoryRegistry, cat.extensions = ["ANY"] ∨
      ∀ e ∈ cat.extensions, lowerStr e = e := by decide

lemma extensionOk_of_matches (exts : List String)
    (h : exts = ["ANY"] ∨ ∀ e ∈ exts, lowerStr e = e)
    (e : String) (he : e ∈ exts) (ext : String)
    (hx : lowerStr ext = lowerStr e) : extensionOk exts ext = true := by
  rcases h with h | h
  · simp [extensionOk, h]
  · have hxe : lowerStr ext = e := by rw [hx, h e he]
    simp [extensionOk, hxe, he]

lemma centrifuge_not_in_kindRegistry : BiofileKind.centrifugeDB ∉ kindRegistry := by
  decide

lemma standard_mem_kindRegistry {cat : FileCategory}
    (h : BiofileKind.standard cat ∈ kindRegistry) : cat ∈ categoryRegistry := by
  simp only [kindRegistry, List.mem_append, List.mem_map, List.mem_singleton] at h
  rcases h with ⟨c, hc, heq⟩ | h
  · cases heq; exact hc
  · cases h

lemma extCheckPasses_of_matches :
    ∀ kind ∈ kindRegistry, ∀ e ∈ (kindCategory kind).extensions, ∀ ext : String,
      lowerStr ext = lowerStr e → extCheckPasses kind ext = true := by
  intro kind hk e he ext hx
  cases kind with
  | standard cat =>
    have hcat := standard_mem_kindRegistry hk
    simp only [extCheckPasses]
    exact extensionOk_of_matches cat.extensions (registry_exts_lower cat hcat) e he ext hx
  | gzippedFile =>
    simp only [kindCategory, GzippedCat, List.mem_singleton] at he
    subst he
    have : lowerStr ext = ".gz" := by rw [hx]; decide
    simp only [extCheckPasses, this]
    decide
  | centrifugeDB => exact absurd hk centrifuge_not_in_kindRegistry

lemma validate_ok_of_checks (fs : Fs) (b : BiofileState)
    (h1 : check_not_dir fs b = none) (h2 : check_file_not_empty fs b = none)
    (h3 : check_gzip b = none) (h4 : check_extension b = none) :
    Biofile.validate fs b = ({ b with validated := true }, none) := by
  simp [Biofile.validate, h1, h2, h3, h4]

/-- Claim C1: for every path that is not a directory, with non-empty
content, whose resolved extension matches the category's accepted set
case-insensitively and whose declared gzip flag matches the suffix,
constructing a binding of that category succeeds; and for every category
and every accepted extension the membership test is case-insensitive. -/
theorem c1_construction_succeeds :
    (∀ kind ∈ kindRegistry, ∀ (fs : Fs) (path : String) (gz pe : Bool),
      is_dir fs path = false →
      is_empty fs path = false →
      (∃ e ∈ (kindCategory kind).extensions,
        lowerStr (getExtension path (effectiveGzip kind gz)) = lowerStr e) →
      gzipConsistent (effectiveGzip kind gz)
        (getExtension path (effectiveGzip kind gz)) = true →
      ∃ b, mkBiofile fs kind path gz pe = .ok b) ∧
    (∀ kind ∈ kindRegistry, ∀ e ∈ (kindCategory kind).extensions, ∀ ext : String,
      lowerStr ext = lowerStr e → extCheckPasses kind ext = true) := by
  constructor
  · intro kind hk fs path gz pe hdir hne hmem hgz
    obtain ⟨e, he, hx⟩ := hmem
    have hext := extCheckPasses_of_matches kind hk e he _ hx
    cases kind with
    | standard cat =>
      simp only [effectiveGzip] at hgz hext
      have hval := validate_ok_of_checks fs
        ⟨.standard cat, path, gz, pe, getExtension path gz, false⟩
        (by simp [check_not_dir, hdir])
        (by cases pe <;> simp [check_file_not_empty, hne])
        (by cases gz <;> simp_all [check_gzip, gzipConsistent])
        (by simp [check_extension, hext])
      exact ⟨⟨.standard cat, path, gz, pe, getExtension path gz, true⟩,
        by simp [mkBiofile, effectiveGzip, hval]⟩
    | gzippedFile =>
      simp only [effectiveGzip] at hgz hext
      have hval := validate_ok_of_checks fs
        ⟨.gzippedFile, path, true, pe, getExtension path true, false⟩
        (by simp [check_not_dir, hdir])
        (by cases pe <;> simp [check_file_not_empty, hne])
        (by simp [check_gzip])
        (by simp [check_extension, hext])
      exact ⟨⟨.gzippedFile, path, true, pe, getExtension path true, true⟩,
        by simp [mkBiofile, effectiveGzip, hval]⟩
    | centrifugeDB => exact absurd hk centrifuge_not_in_kindRegistry
  · exact extCheckPasses_of_matches

def fsW1 : Fs := fun p => if p = "a.fa" then some ⟨false, 4⟩ else none

/-- Witness for C1 at the `Fasta` category and path `a.fa`. -/
theorem c1_construction_succeeds_witness :
    ∃ b, mkBiofile fsW1 (.standard Fasta) "a.fa" false false = .ok b :=
  c1_construction_succeeds.1 (.standard Fasta) (by decide) fsW1 "a.fa" false false
    (by decide) (by decide) ⟨".fa", by decide, by decide⟩ (by decide)

lemma check_not_dir_err {fs : Fs} {b : BiofileState} {e : VErr}
    (h : check_not_dir fs b = some e) : e = .DirectoryError b.path := by
  unfold check_not_dir at h
  split at h <;> simp_all

lemma check_file_not_empty_err {fs : Fs} {b : BiofileState} {e : VErr}
    (h : check_file_not_empty fs b = some e) : e = .EmptyFileError b.path := by
  unfold check_file_not_empty at h
  split at h <;> split at h <;> simp_all <;> split at h <;> simp_all

lemma check_gzip_err {b : BiofileState} {e : VErr}
    (h : check_gzip b = some e) : e = .GzipStatusError b.path := by
  unfold check_gzip at h
  split at h <;> try split at h
  all_goals simp_all <;> split at h <;> simp_all

lemma check_extension_err {b : BiofileState} {e : VErr}
    (h : check_extension b = some e) : e = .FileExtensionError b.path := by
  unfold check_extension at h
  split at h <;> simp_all

lemma biofile_validate_err_shapes {fs : Fs} {b b' : BiofileState} {e : VErr}
    (h : Biofile.validate fs b = (b', some e)) :
    e = .DirectoryError b.path ∨ e = .EmptyFileError b.path ∨
      e = .GzipStatusError b.path ∨ e = .FileExtensionError b.path := by
  unfold Biofile.validate at h
  split at h
  · simp only [Prod.mk.injEq, Option.some.injEq] at h
    exact Or.inl (h.2 ▸ check_not_dir_err (by assumption))
  · split at h
    · simp only [Prod.mk.injEq, Option.some.injEq] at h
      exact Or.inr (Or.inl (h.2 ▸ check_file_not_empty_err (by assumption)))
    · split at h
      · simp only [Prod.mk.injEq, Option.some.injEq] at h
        exact Or.inr (Or.inr (Or.inl (h.2 ▸ check_gzip_err (by assumption))))
      · split at h
        · simp only [Prod.mk.injEq, Option.some.injEq] at h
          exact Or.inr (Or.inr (Or.inr (h.2 ▸ check_extension_err (by assumption))))
        · simp at h

lemma mkBiofile_err_shapes {fs : Fs} {kind : BiofileKind} {path : String}
    {gz pe : Bool} {e : VErr} (h : mkBiofile fs kind path gz pe = .error e) :
    e = .DirectoryError path ∨ e = .EmptyFileError path ∨
      e = .GzipStatusError path ∨ e = .FileExtensionError path := by
  unfold mkBiofile at h
  dsimp only at h
  split at h
  · simp at h
  · rename_i heq
    simp only [Except.error.injEq] at h
    subst h
    exact biofile_validate_err_shapes heq

def fsNone : Fs := fun _ => none

/-- Claim C2 counterexample: on a filesystem where `sample.fq` does not
exist, validation fails with the EmptyFile kind, not a MissingFile kind. -/
theorem c2_missing_path_counterexample :
    mkBiofile fsNone (.standard Fastq) "sample.fq" false false =
      .error (VErr.EmptyFileError "sample.fq") ∧
    VErr.EmptyFileError "sample.fq" ≠ VErr.MissingFileError "sample.fq" :=
  ⟨rfl, by decide⟩

/-- Claim C2 (amended): a binding whose path does not exist (and whose
`possibly_empty` is false) fails at the emptiness step with the EmptyFile
kind — a missing path is treated as empty; no separate MissingFile failure
kind exists, and validation never surfaces one. -/
theorem c2_amended_missing_path_gives_empty_file :
    (∀ (fs : Fs) (kind : BiofileKind) (path : String) (gz : Bool),
      kind ≠ .centrifugeDB → fs path = none →
      mkBiofile fs kind path gz false = .error (VErr.EmptyFileError path)) ∧
    (∀ (fs : Fs) (kind : BiofileKind) (path : String) (gz pe : Bool) (p : String),
      mkBiofile fs kind path gz pe ≠ .error (VErr.MissingFileError p)) := by
  constructor
  · intro fs kind path gz hk hfs
    have hdir : is_dir fs path = false := by simp [is_dir, hfs]
    have hemp : is_empty fs path = true := by simp [is_empty, hfs]
    cases kind with
    | standard cat =>
      simp [mkBiofile, Biofile.validate, effectiveGzip, check_not_dir, hdir,
        check_file_not_empty, hemp]
    | gzippedFile =>
      simp [mkBiofile, Biofile.validate, effectiveGzip, check_not_dir, hdir,
        check_file_not_empty, hemp]
    | centrifugeDB => exact absurd rfl hk
  · intro fs kind path gz pe p h
    rcases mkBiofile_err_shapes h with h' | h' | h' | h' <;> cases h'

/-- Witness for the amended C2 at a concrete missing path. -/
theorem c2_amended_missing_path_gives_empty_file_witness :
    mkBiofile fsNone .gzippedFile "x.gz" true false =
      .error (VErr.EmptyFileError "x.gz") :=
  c2_amended_missing_path_gives_empty_file.1 fsNone .gzippedFile "x.gz" true
    (by decide) rfl

lemma splitOnDot_no_dot {a : List Char} (h : '.' ∉ a) : splitOnDot a = [a] := by
  induction a with
  | nil => rfl
  | cons c cs ih =>
    simp only [List.mem_cons, not_or] at h
    have hc : ¬ (c = '.') := fun hcc => h.1 hcc.symm
    simp only [splitOnDot, if_neg hc, ih h.2]

lemma splitOnDot_append_dot {a : List Char} (b : List Char) (h : '.' ∉ a) :
    splitOnDot (a ++ '.' :: b) = a :: splitOnDot b := by
  induction a with
  | nil => simp [splitOnDot]
  | cons c cs ih =>
    simp only [List.mem_cons, not_or] at h
    have hc : ¬ (c = '.') := fun hcc => h.1 hcc.symm
    simp only [List.cons_append, splitOnDot, if_neg hc]
    rw [show cs.append ('.' :: b) = cs ++ '.' :: b from rfl, ih h.2]

lemma takeWhile_append_of_all {p : Char → Bool} {a : List Char} (c : Char)
    (d : List Char) (ha : ∀ x ∈ a, p x = true) (hc : p c = false) :
    (a ++ c :: d).takeWhile p = a := by
  induction a with
  | nil => simp [List.takeWhile_cons, hc]
  | cons x xs ih =>
    have hx := ha x (by simp)
    simp only [List.cons_append, List.takeWhile_cons, hx, if_true]
    rw [ih (fun y hy => ha y (by simp [hy]))]

lemma takeWhile_of_all {p : Char → Bool} {a : List Char}
    (ha : ∀ x ∈ a, p x = true) : a.takeWhile p = a := by
  induction a with
  | nil => rfl
  | cons x xs ih =>
    have hx := ha x (by simp)
    simp only [List.takeWhile_cons, hx, if_true]
    rw [ih (fun y hy => ha y (by simp [hy]))]

lemma basenameChars_of_no_slash {l : List Char} (h : '/' ∉ l) :
    basenameChars (String.mk l) = l := by
  unfold basenameChars
  have : (String.mk l).toList = l := rfl
  rw [this, takeWhile_of_all, List.reverse_reverse]
  intro x hx
  simp only [List.mem_reverse] at hx
  simp only [decide_eq_true_eq]
  exact fun hxe => h (hxe ▸ hx)

lemma getLast?_of_shape (stem s1 s2 : List Char) (hs2ne : s2 ≠ []) :
    (stem ++ '.' :: (s1 ++ '.' :: s2)).getLast? = s2.getLast? := by
  rw [List.getLast?_append_cons, show ('.' :: (s1 ++ '.' :: s2)) =
    ('.' :: s1) ++ '.' :: s2 by simp, List.getLast?_append_cons,
    show ('.' :: s2) = ['.'] ++ s2 by simp,
    List.getLast?_append_of_ne_nil _ hs2ne]

/-- The two suffix functions on a name of shape `stem.s1.s2`. -/
lemma suffix_decomposition (stem s1 s2 : List Char)
    (hstem : stem ≠ []) (hstem_dot : '.' ∉ stem)
    (hs1 : '.' ∉ s1) (hs2 : '.' ∉ s2) (hs2ne : s2 ≠ []) :
    pySuffixes (stem ++ '.' :: (s1 ++ '.' :: s2)) = ['.' :: s1, '.' :: s2] ∧
    pySuffix (stem ++ '.' :: (s1 ++ '.' :: s2)) = '.' :: s2 := by
  have hlast : ¬ ((stem ++ '.' :: (s1 ++ '.' :: s2)).getLast? = some '.') := by
    rw [getLast?_of_shape stem s1 s2 hs2ne,
      List.getLast?_eq_getLast_of_ne_nil hs2ne]
    intro hsome
    exact hs2 ((Option.some.injEq _ _ ▸ hsome) ▸ List.getLast_mem hs2ne)
  constructor
  · unfold pySuffixes
    rw [if_neg hlast]
    have hdrop :
        (stem ++ '.' :: (s1 ++ '.' :: s2)).dropWhile (fun c => decide (c = '.')) =
          stem ++ '.' :: (s1 ++ '.' :: s2) := by
      rcases stem with _ | ⟨c, cs⟩
      · exact absurd rfl hstem
      · have hc : ¬ (c = '.') := by
          intro hcc
          exact hstem_dot (by simp [hcc])
        simp only [List.cons_append, List.dropWhile_cons, decide_eq_true_eq,
          if_neg hc]
    rw [hdrop, splitOnDot_append_dot _ hstem_dot, splitOnDot_append_dot _ hs1,
      splitOnDot_no_dot hs2]
    rfl
  · unfold pySuffix
    rw [if_pos (by simp)]
    have hrev : (stem ++ '.' :: (s1 ++ '.' :: s2)).reverse =
        s2.reverse ++ '.' :: (s1.reverse ++ '.' :: stem.reverse) := by
      simp [List.reverse_append, List.reverse_cons, List.append_assoc]
    rw [hrev, takeWhile_append_of_all '.' _
      (fun x hx => by
        simp only [decide_eq_true_eq]
        exact fun hxe => hs2 (hxe ▸ List.mem_reverse.mp hx))
      (by simp), List.reverse_reverse]
    rw [if_pos]
    constructor
    · have hstpos : 0 < stem.length := List.length_pos.mpr hstem
      simp only [List.length_append, List.length_cons]
      omega
    · exact hs2ne

lemma biofile_validate_cases (fs : Fs) (b : BiofileState) :
    Biofile.validate fs b = ({ b with validated := true }, none) ∨
    ∃ e, Biofile.validate fs b = (b, some e) := by
  unfold Biofile.validate
  rcases h1 : check_not_dir fs b with _ | e1
  · rcases h2 : check_file_not_empty fs b with _ | e2
    · rcases h3 : check_gzip b with _ | e3
      · rcases h4 : check_extension b with _ | e4
        · left; rfl
        · right; exact ⟨e4, rfl⟩
      · right; exact ⟨e3, rfl⟩
    · right; exact ⟨e2, rfl⟩
  · right; exact ⟨e1, rfl⟩

lemma biofile_validate_ok_state {fs : Fs} {b b' : BiofileState}
    (h : Biofile.validate fs b = (b', none)) : b' = { b with validated := true } := by
  rcases biofile_validate_cases fs b with hc | ⟨e, hc⟩
  · rw [h] at hc
    exact ((Prod.mk.injEq _ _ _ _).mp hc).1
  · rw [h] at hc
    simp at hc

lemma biofile_validate_err_state {fs : Fs} {b b' : BiofileState} {e : VErr}
    (h : Biofile.validate fs b = (b', some e)) : b' = b := by
  rcases biofile_validate_cases fs b with hc | ⟨e', hc⟩
  · rw [h] at hc
    simp at hc
  · rw [h] at hc
    exact ((Prod.mk.injEq _ _ _ _).mp hc).1

lemma mkBiofile_ok_state {fs : Fs} {kind : BiofileKind} {path : String}
    {gz pe : Bool} {b : BiofileState} (h : mkBiofile fs kind path gz pe = .ok b) :
    b = { kind := kind, path := path, gzipped := effectiveGzip kind gz,
          possibly_empty := pe,
          extension := getExtension path (effectiveGzip kind gz),
          validated := true } := by
  unfold mkBiofile at h
  dsimp only at h
  split at h
  · rename_i heq
    simp only [Except.ok.injEq] at h
    subst h
    exact biofile_validate_ok_state heq
  · simp at h

lemma getExtension_decomposition (stem s1 s2 : List Char)
    (hstem : stem ≠ []) (hstem_dot : '.' ∉ stem) (hstem_sl : '/' ∉ stem)
    (hs1 : '.' ∉ s1) (hs1_sl : '/' ∉ s1)
    (hs2 : '.' ∉ s2) (hs2ne : s2 ≠ []) (hs2_sl : '/' ∉ s2) :
    getExtension (String.mk (stem ++ '.' :: (s1 ++ '.' :: s2))) true =
      String.mk ('.' :: (s1 ++ '.' :: s2)) ∧
    getExtension (String.mk (stem ++ '.' :: (s1 ++ '.' :: s2))) false =
      String.mk ('.' :: s2) := by
  have hb : basenameChars (String.mk (stem ++ '.' :: (s1 ++ '.' :: s2))) =
      stem ++ '.' :: (s1 ++ '.' :: s2) := by
    apply basenameChars_of_no_slash
    intro hmem
    rcases List.mem_append.mp hmem with hm | hm
    · exact hstem_sl hm
    · rcases List.mem_cons.mp hm with hm | hm
      · exact absurd hm (by decide)
      · rcases List.mem_append.mp hm with hm | hm
        · exact hs1_sl hm
        · rcases List.mem_cons.mp hm with hm | hm
          · exact absurd hm (by decide)
          · exact hs2_sl hm
  obtain ⟨hsfs, hsf⟩ := suffix_decomposition stem s1 s2 hstem hstem_dot hs1 hs2 hs2ne
  constructor
  · simp only [getExtension, if_true, hb, hsfs]
    simp [List.flatten]
  · simp only [getExtension, Bool.false_eq_true, if_false, hb, hsf]

def fsW3 : Fs := fun p => if p = "reads.fq.gz" then some ⟨false, 8⟩ else none

/-- Claim C3 counterexample: for the gzipped filename `sample.fq.gz` the
resolved extension is `.fq.gz` — the two suffix segments keep their leading
dots — not `fq.gz` as the claim's example states. -/
theorem c3_resolution_counterexample :
    getExtension "sample.fq.gz" true = ".fq.gz" ∧
    getExtension "sample.fq.gz" true ≠ "fq.gz" := by
  constructor <;> decide

/-- Claim C3 (amended): extension resolution takes the last two suffix
segments, each keeping its leading dot, when gzipped (`sample.fq.gz`
resolves to `.fq.gz`), and the final dot-led suffix otherwise (`sample.fq`
resolves to `.fq`); the resolution is performed at construction: every
successfully constructed binding stores exactly the resolved extension,
which is what the membership check later reads. -/
theorem c3_amended_extension_resolution :
    (∀ stem s1 s2 : List Char,
      stem ≠ [] → '.' ∉ stem → '/' ∉ stem →
      '.' ∉ s1 → '/' ∉ s1 → '.' ∉ s2 → s2 ≠ [] → '/' ∉ s2 →
      getExtension (String.mk (stem ++ '.' :: (s1 ++ '.' :: s2))) true =
        String.mk ('.' :: (s1 ++ '.' :: s2)) ∧
      getExtension (String.mk (stem ++ '.' :: (s1 ++ '.' :: s2))) false =
        String.mk ('.' :: s2)) ∧
    getExtension "sample.fq.gz" true = ".fq.gz" ∧
    getExtension "sample.fq" false = ".fq" ∧
    (∀ (fs : Fs) (kind : BiofileKind) (path : String) (gz pe : Bool)
      (b : BiofileState), mkBiofile fs kind path gz pe = .ok b →
      b.extension = getExtension path (effectiveGzip kind gz)) := by
  refine ⟨?_, by decide, by decide, ?_⟩
  · intro stem s1 s2 h1 h2 h3 h4 h5 h6 h7 h8
    exact getExtension_decomposition stem s1 s2 h1 h2 h3 h4 h5 h6 h7 h8
  · intro fs kind path gz pe b h
    rw [mkBiofile_ok_state h]

/-- Witness for the amended C3 at the decomposed name `reads.fq.gz`. -/
theorem c3_amended_extension_resolution_witness :
    getExtension (String.mk (['r', 'e', 'a', 'd', 's'] ++ '.' ::
        (['f', 'q'] ++ '.' :: ['g', 'z']))) true =
      String.mk ('.' :: (['f', 'q'] ++ '.' :: ['g', 'z'])) ∧
    getExtension (String.mk (['r', 'e', 'a', 'd', 's'] ++ '.' ::
        (['f', 'q'] ++ '.' :: ['g', 'z']))) false =
      String.mk ('.' :: ['g', 'z']) :=
  c3_amended_extension_resolution.1 ['r', 'e', 'a', 'd', 's'] ['f', 'q']
    ['g', 'z'] (by decide) (by decide) (by decide) (by decide) (by decide)
    (by decide) (by decide) (by decide)

/-- Claim C4: the inherited gzip-consistency check fails with the
GzipStatus kind exactly when the declared flag disagrees with the resolved
extension (flag set but no `.gz`, or flag unset but `gz` occurs anywhere);
the `Gzipped` variant skips that check entirely and instead requires the
(lower-cased) resolved extension to contain `.gz`. -/
theorem c4_gzip_check_characterization :
    (∀ b : BiofileState, b.kind ≠ .gzippedFile →
      (check_gzip b = some (VErr.GzipStatusError b.path) ↔
        (b.gzipped = true ∧ strContains b.extension ".gz" = false) ∨
        (b.gzipped = false ∧ strContains b.extension "gz" = true))) ∧
    (∀ b : BiofileState, b.kind = .gzippedFile →
      check_gzip b = none ∧
      (check_extension b = some (VErr.FileExtensionError b.path) ↔
        strContains (lowerStr b.extension) ".gz" = false)) := by
  constructor
  · intro b hk
    rcases b with ⟨kind, path, gz, pe, ext, v⟩
    cases kind with
    | standard cat =>
      cases gz <;> [skip; skip] <;>
        first
        | (cases hc : strContains ext ".gz" <;> simp [check_gzip, hc])
        | (cases hc : strContains ext "gz" <;> simp [check_gzip, hc])
    | gzippedFile => exact absurd rfl hk
    | centrifugeDB =>
      cases gz <;>
        first
        | (cases hc : strContains ext ".gz" <;> simp [check_gzip, hc])
        | (cases hc : strContains ext "gz" <;> simp [check_gzip, hc])
  · intro b hk
    rcases b with ⟨kind, path, gz, pe, ext, v⟩
    cases hk
    refine ⟨rfl, ?_⟩
    cases hc : strContains (lowerStr ext) ".gz" <;>
      simp [check_extension, extCheckPasses, hc]

def bW4 : BiofileState := ⟨.standard Fastq, "x.fq", true, false, ".fq", false⟩

/-- Witness for C4: a declared-gzipped binding with extension `.fq` fails
the gzip check. -/
theorem c4_gzip_check_characterization_witness :
    check_gzip bW4 = some (VErr.GzipStatusError "x.fq") :=
  (c4_gzip_check_characterization.1 bW4 (by decide)).mpr
    (Or.inl ⟨rfl, by decide⟩)

lemma all_equal_ext_iff (bs : List BiofileState) :
    all_equal (bs.map (fun b => b.extension)) = true ↔
      ∀ b ∈ bs, ∀ b0, bs.head? = some b0 → b.extension = b0.extension := by
  cases bs with
  | nil => simp [all_equal]
  | cons b rest =>
    simp only [List.map_cons, all_equal, List.all_eq_true, decide_eq_true_eq,
      List.head?_cons, Option.some.injEq, List.mem_cons, List.mem_map]
    constructor
    · rintro h x hx b0 rfl
      rcases hx with rfl | hx
      · rfl
      · exact h _ ⟨x, hx, rfl⟩
    · rintro h y ⟨x, hx, rfl⟩
      exact h x (Or.inr hx) b rfl

lemma validateMembers_err_shapes {fs : Fs} {bs : List BiofileState} {e : VErr}
    (h : (validateMembers fs bs).2 = some e) :
    ∃ b ∈ bs, e = .DirectoryError b.path ∨ e = .EmptyFileError b.path ∨
      e = .GzipStatusError b.path ∨ e = .FileExtensionError b.path := by
  induction bs with
  | nil => simp [validateMembers] at h
  | cons b rest ih =>
    unfold validateMembers at h
    split at h
    · dsimp only at h
      obtain ⟨b', hb', hsh⟩ := ih h
      exact ⟨b', by simp [hb'], hsh⟩
    · split at h
      · dsimp only at h
        obtain ⟨b', hb', hsh⟩ := ih h
        exact ⟨b', by simp [hb'], hsh⟩
      · rename_i heq
        dsimp only at h
        simp only [Option.some.injEq] at h
        subst h
        exact ⟨b, by simp, biofile_validate_err_shapes heq⟩

def fsC5 : Fs := fun p => if p = "a.fa" ∨ p = "b.fasta" then some ⟨false, 5⟩ else none

/-- Claim C5: group validation fails with the inconsistent-extensions kind
(carrying the full path list) exactly when some member's resolved extension
differs from the first member's; in particular the group `[a.fa, b.fasta]`
under the `Fasta` category fails that way although each path is
individually accepted. -/
theorem c5_group_extension_consistency :
    (∀ (fs : Fs) (g : BiofileGroupState), g.paths ≠ [] →
      ((BiofileGroup.validate fs g).2 =
          some (VErr.FileExtensionsNotSameError g.paths) ↔
        ¬ ∀ b ∈ g.biofiles, ∀ b0, g.biofiles.head? = some b0 →
            b.extension = b0.extension)) ∧
    mkBiofileGroup fsC5 (.standard Fasta) false false ["a.fa", "b.fasta"] =
      .error (VErr.FileExtensionsNotSameError ["a.fa", "b.fasta"]) := by
  constructor
  · intro fs g hne
    rw [← all_equal_ext_iff]
    unfold BiofileGroup.validate
    rw [if_neg (by simpa using hne)]
    by_cases hall : all_equal (g.biofiles.map (fun b => b.extension)) = true
    · rw [if_pos hall]
      simp only [hall, not_true, iff_false]
      split
      · simp
      · rename_i bs e heq
        dsimp only
        intro hcontra
        simp only [Option.some.injEq] at hcontra
        obtain ⟨b, hb, hsh⟩ :=
          validateMembers_err_shapes (e := e) (by rw [heq])
        subst hcontra
        rcases hsh with h | h | h | h <;> cases h
    · rw [if_neg hall]
      simp [hall]
  · rfl

def bW5a : BiofileState := ⟨.standard Fasta, "x.fa", false, false, ".fa", true⟩
def bW5b : BiofileState := ⟨.standard Fasta, "y.fasta", false, false, ".fasta", true⟩
def gW5 : BiofileGroupState := ⟨["x.fa", "y.fasta"], .standard Fasta, [bW5a, bW5b], false⟩

/-- Witness for C5 at a two-member group with differing extensions. -/
theorem c5_group_extension_consistency_witness :
    (BiofileGroup.validate fsC5 gW5).2 =
      some (VErr.FileExtensionsNotSameError ["x.fa", "y.fasta"]) :=
  (c5_group_extension_consistency.1 fsC5 gW5 (by decide)).mpr (by decide)

lemma all_equal_iff_pairwise {α : Type} [DecidableEq α] (l : List α) :
    all_equal l = true ↔ ∀ x ∈ l, ∀ y ∈ l, x = y := by
  cases l with
  | nil => simp [all_equal]
  | cons a as =>
    simp only [all_equal, List.all_eq_true, decide_eq_true_eq, List.mem_cons]
    constructor
    · intro h x hx y hy
      have hx' : x = a := by
        rcases hx with rfl | hx
        · rfl
        · exact h x hx
      have hy' : y = a := by
        rcases hy with rfl | hy
        · rfl
        · exact h y hy
      rw [hx', hy']
    · intro h y hy
      exact h y (Or.inr hy) a (Or.inl rfl)

/-- Claim C6: matched-group validation runs its three checks in order —
structural-duplicate detection, length equality, per-index prefix-token
agreement — the first failing check determining the error; the duplicate
test is over all pairs of distinct positions, and (once lengths agree) the
prefix test is per-index agreement across the groups. -/
theorem c6_matched_prefix_check_order :
    (∀ (fs : Fs) (m : MatchedPrefixGroupState),
      (hasDuplicateGroup m.groups = true →
        MatchedPrefixGroup.validate fs m =
          (m, some (VErr.DuplicateFilegroupError (m.groups.map (fun g => g.paths))))) ∧
      (hasDuplicateGroup m.groups = false →
        all_equal (m.groups.map (fun g => g.paths.length)) = false →
        MatchedPrefixGroup.validate fs m =
          (m, some (VErr.GroupLengthError (m.groups.map (fun g => g.paths))))) ∧
      (hasDuplicateGroup m.groups = false →
        all_equal (m.groups.map (fun g => g.paths.length)) = true →
        all_equal (m.groups.map (fun g => g.paths.map prefTok)) = false →
        MatchedPrefixGroup.validate fs m =
          (m, some (VErr.PrefixMatchError (m.groups.map (fun g => g.paths)))))) ∧
    (∀ gs : List BiofileGroupState,
      (hasDuplicateGroup gs = true ↔
        ∃ i, i < gs.length ∧ ∃ j, j < gs.length ∧ i ≠ j ∧
          groupEq (gs.getD i default) (gs.getD j default) = true)) ∧
    (∀ gs : List BiofileGroupState,
      all_equal (gs.map (fun g => g.paths.length)) = true →
      (all_equal (gs.map (fun g => g.paths.map prefTok)) = true ↔
        ∀ g1 ∈ gs, ∀ g2 ∈ gs, ∀ i : Nat,
          (g1.paths.map prefTok)[i]? = (g2.paths.map prefTok)[i]?)) := by
  refine ⟨?_, ?_, ?_⟩
  · intro fs m
    refine ⟨?_, ?_, ?_⟩
    · intro hdup
      unfold MatchedPrefixGroup.validate
      rw [if_pos hdup]
    · intro hdup hlen
      unfold MatchedPrefixGroup.validate
      rw [if_neg (by simp [hdup]), if_neg (by simp [hlen])]
    · intro hdup hlen hpre
      unfold MatchedPrefixGroup.validate
      rw [if_neg (by simp [hdup]), if_pos hlen, if_neg (by simp [hpre])]
  · intro gs
    simp only [hasDuplicateGroup, List.any_eq_true, List.mem_range,
      Bool.and_eq_true, decide_eq_true_eq]
  · intro gs _
    rw [all_equal_iff_pairwise]
    constructor
    · intro h g1 h1 g2 h2 i
      have := h (g1.paths.map prefTok) (List.mem_map_of_mem _ h1)
        (g2.paths.map prefTok) (List.mem_map_of_mem _ h2)
      rw [this]
    · intro h x hx y hy
      obtain ⟨g1, hg1, rfl⟩ := List.mem_map.mp hx
      obtain ⟨g2, hg2, rfl⟩ := List.mem_map.mp hy
      exact List.ext_getElem? (fun n => h g1 hg1 g2 hg2 n)

def gW6 : BiofileGroupState := ⟨["a.fa"], .standard Fasta, [⟨.standard Fasta, "a.fa", false, false, ".fa", true⟩], true⟩

/-- Witness for C6: a set pairing a group with itself fails the duplicate
check first. -/
theorem c6_matched_prefix_check_order_witness :
    MatchedPrefixGroup.validate fsC5 ⟨[gW6, gW6], false⟩ =
      (⟨[gW6, gW6], false⟩,
        some (VErr.DuplicateFilegroupError [["a.fa"], ["a.fa"]])) :=
  (c6_matched_prefix_check_order.1 fsC5 ⟨[gW6, gW6], false⟩).1 (by decide)

lemma group_validate_fst_paths (fs : Fs) (g : BiofileGroupState) :
    ((BiofileGroup.validate fs g).1).paths = g.paths := by
  unfold BiofileGroup.validate
  split
  · rfl
  · split
    · split <;> rfl
    · rfl

lemma validateGroups_fst_paths (fs : Fs) (gs : List BiofileGroupState) :
    ((validateGroups fs gs).1).map (fun g => g.paths) = gs.map (fun g => g.paths) := by
  induction gs with
  | nil => rfl
  | cons g rest ih =>
    unfold validateGroups
    split
    · rename_i g' heq
      have hp : g'.paths = g.paths := by
        have h0 := group_validate_fst_paths fs g
        rw [heq] at h0
        exact h0
      dsimp only
      simp only [List.map_cons, hp, ih]
    · rename_i g' e heq
      have hp : g'.paths = g.paths := by
        have h0 := group_validate_fst_paths fs g
        rw [heq] at h0
        exact h0
      simp only [List.map_cons, hp]

lemma mkMPG_ok {fs : Fs} {gs : List BiofileGroupState} {m : MatchedPrefixGroupState}
    (h : mkMatchedPrefixGroup fs gs = .ok m) :
    m.groups.map (fun g => g.paths) = gs.map (fun g => g.paths) ∧
    all_equal (m.groups.map (fun g => g.paths.length)) = true := by
  unfold mkMatchedPrefixGroup at h
  split at h
  · rename_i m' heq
    simp only [Except.ok.injEq] at h
    subst h
    unfold MatchedPrefixGroup.validate at heq
    split at heq
    · simp at heq
    · split at heq
      · rename_i hlen
        split at heq
        · dsimp only at heq
          rw [if_neg (by simp)] at heq
          split at heq
          · rename_i gs' hvg
            simp only [Prod.mk.injEq] at heq
            have hm : m' = ⟨gs', true⟩ := heq.1.symm
            subst hm
            have hps := validateGroups_fst_paths fs gs
            rw [hvg] at hps
            refine ⟨hps, ?_⟩
            have hmm : (gs'.map fun g => g.paths.length) =
                (gs.map fun g => g.paths.length) := by
              have h1 : (gs'.map fun g => g.paths.length) =
                  ((gs'.map fun g => g.paths).map fun l => l.length) := by
                simp [List.map_map, Function.comp]
              have h2 : (gs.map fun g => g.paths.length) =
                  ((gs.map fun g => g.paths).map fun l => l.length) := by
                simp [List.map_map, Function.comp]
              rw [h1, h2, hps]
            rw [hmm]
            exact hlen
          · simp at heq
        · simp at heq
      · simp at heq
  · simp at h

lemma sequenceOpt_of_lt {gs : List BiofileGroupState} {i : Nat}
    (h : ∀ g ∈ gs, i < g.paths.length) :
    sequenceOpt (gs.map (fun g => g.paths[i]?)) =
      some (gs.map (fun g => g.paths.getD i "")) := by
  induction gs with
  | nil => rfl
  | cons g rest ih =>
    have hg := h g (by simp)
    simp only [List.map_cons]
    rw [List.getElem?_eq_getElem hg]
    unfold sequenceOpt
    rw [ih (fun g' hg' => h g' (by simp [hg']))]
    simp [List.getD_eq_getElem _ _ hg, List.getElem?_eq_getElem hg]

def fs7 : Fs := fun p =>
  if p = "s1.R1.fastq" ∨ p = "s2.R1.fastq" ∨ p = "s1.R2.fastq" ∨ p = "s2.R2.fastq"
  then some ⟨false, 3⟩ else none

def getOkG (x : Except VErr BiofileGroupState) : BiofileGroupState :=
  match x with
  | .ok g => g
  | .error _ => default

def g7a : BiofileGroupState :=
  getOkG (mkBiofileGroup fs7 (.standard Fastq) false false
    ["s1.R1.fastq", "s2.R1.fastq"])

def g7b : BiofileGroupState :=
  getOkG (mkBiofileGroup fs7 (.standard Fastq) false false
    ["s1.R2.fastq", "s2.R2.fastq"])

def mpg7 : MatchedPrefixGroupState :=
  match mkMatchedPrefixGroup fs7 [g7a, g7b] with
  | .ok m => m
  | .error _ => ⟨[], false⟩

/-- Claim C7: on a validly constructed matched-prefix set, indexing at an
in-range position returns the i-th path of every member group in group
order, the set length is the common group length, and the spec's
forward/reverse example constructs and indexes as stated. -/
theorem c7_indexing_and_length :
    (∀ (fs : Fs) (gs : List BiofileGroupState) (m : MatchedPrefixGroupState),
      mkMatchedPrefixGroup fs gs = .ok m →
      (∀ g ∈ m.groups, g.paths.length = MatchedPrefixGroup.length m) ∧
      (∀ i, i < MatchedPrefixGroup.length m →
        MatchedPrefixGroup.getItem m i =
          some (m.groups.map (fun g => g.paths.getD i "")))) ∧
    (∃ m, mkMatchedPrefixGroup fs7 [g7a, g7b] = .ok m ∧
      MatchedPrefixGroup.getItem m 0 = some ["s1.R1.fastq", "s1.R2.fastq"] ∧
      MatchedPrefixGroup.getItem m 1 = some ["s2.R1.fastq", "s2.R2.fastq"] ∧
      MatchedPrefixGroup.length m = 2) := by
  constructor
  · intro fs gs m h
    obtain ⟨hps, hlen⟩ := mkMPG_ok h
    have hall : ∀ g ∈ m.groups, ∀ g' ∈ m.groups,
        g.paths.length = g'.paths.length := by
      intro g hg g' hg'
      exact (all_equal_iff_pairwise _).mp hlen _
        (List.mem_map_of_mem _ hg) _ (List.mem_map_of_mem _ hg')
    have hlen_eq : ∀ g ∈ m.groups, g.paths.length = MatchedPrefixGroup.length m := by
      intro g hg
      unfold MatchedPrefixGroup.length
      rcases hmg : m.groups with _ | ⟨g0, rest⟩
      · rw [hmg] at hg
        cases hg
      · exact hall g hg g0 (by rw [hmg]; simp)
    refine ⟨hlen_eq, ?_⟩
    intro i hi
    unfold MatchedPrefixGroup.getItem
    exact sequenceOpt_of_lt (fun g hg => by rw [hlen_eq g hg]; exact hi)
  · exact ⟨mpg7, rfl, rfl, rfl, rfl⟩

/-- Witness for C7's general part at the concrete example set. -/
theorem c7_indexing_and_length_witness :
    MatchedPrefixGroup.getItem mpg7 0 =
      some (mpg7.groups.map (fun g => g.paths.getD 0 "")) :=
  ((c7_indexing_and_length.1 fs7 [g7a, g7b] mpg7 rfl).2) 0 (by decide)

lemma biofile_validate_ok_checks {fs : Fs} {b b' : BiofileState}
    (h : Biofile.validate fs b = (b', none)) :
    check_not_dir fs b = none ∧ check_file_not_empty fs b = none ∧
      check_gzip b = none ∧ check_extension b = none := by
  unfold Biofile.validate at h
  rcases h1 : check_not_dir fs b with _ | e1 <;> rw [h1] at h <;> dsimp only at h
  · rcases h2 : check_file_not_empty fs b with _ | e2 <;> rw [h2] at h <;>
      dsimp only at h
    · rcases h3 : check_gzip b with _ | e3 <;> rw [h3] at h <;> dsimp only at h
      · rcases h4 : check_extension b with _ | e4 <;> rw [h4] at h <;>
          dsimp only at h
        · exact ⟨rfl, rfl, rfl, rfl⟩
        · simp at h
      · simp at h
    · simp at h
  · simp at h

def fs8 : Fs := fun p =>
  if p = "db.1.cf" ∨ p = "db.2.cf" ∨ p = "db.3.cf" then some ⟨false, 9⟩ else none

def exceptIsOk (x : Except VErr BiofileState) : Bool :=
  match x with
  | .ok _ => true
  | .error _ => false

/-- Claim C8 counterexample: with the primary path `db` missing (hence
empty for the emptiness collaborator) but all three derived sibling index
files present and non-empty, CentrifugeDB construction succeeds — the
primary path's existence and size are not required. -/
theorem c8_primary_path_counterexample :
    fs8 "db" = none ∧ is_empty fs8 "db" = true ∧
    exceptIsOk (mkBiofile fs8 .centrifugeDB "db" false false) = true :=
  ⟨rfl, rfl, rfl⟩

/-- Claim C8 (amended): unless `possibly_empty`, CentrifugeDB validation
requires every derived sibling path (the primary path with `.1.cf`,
`.2.cf`, `.3.cf` appended) to exist with non-zero size, failing with the
EmptyFile kind otherwise; the primary path itself is not consulted by the
emptiness check, and the sibling paths play no role in extension
resolution. -/
theorem c8_amended_sibling_emptiness :
    (∀ (fs : Fs) (path : String) (gz : Bool) (b : BiofileState),
      mkBiofile fs .centrifugeDB path gz false = .ok b →
      ∀ q ∈ centrifugeIdx path, is_empty fs q = false) ∧
    (∀ (fs : Fs) (path : String) (gz : Bool),
      is_dir fs path = false →
      (∃ q ∈ centrifugeIdx path, is_empty fs q = true) →
      mkBiofile fs .centrifugeDB path gz false =
        .error (VErr.EmptyFileError path)) ∧
    (∀ (fs fs' : Fs) (b : BiofileState), b.kind = .centrifugeDB →
      (∀ q ∈ centrifugeIdx b.path, is_empty fs q = is_empty fs' q) →
      check_file_not_empty fs b = check_file_not_empty fs' b) ∧
    (∀ (fs : Fs) (path : String) (gz pe : Bool) (b : BiofileState),
      mkBiofile fs .centrifugeDB path gz pe = .ok b →
      b.extension = getExtension path gz) := by
  refine ⟨?_, ?_, ?_, ?_⟩
  · intro fs path gz b h
    unfold mkBiofile at h
    dsimp only at h
    split at h
    · rename_i heq
      obtain ⟨-, hch, -, -⟩ := biofile_validate_ok_checks heq
      simp only [check_file_not_empty, Bool.false_eq_true, if_false] at hch
      intro q hq
      by_contra hne
      have hq' : is_empty fs q = true := by
        cases hqe : is_empty fs q
        · exact absurd hqe hne
        · rfl
      rw [if_pos (List.any_eq_true.mpr ⟨q, hq, hq'⟩)] at hch
      cases hch
    · simp at h
  · intro fs path gz hdir hex
    obtain ⟨q, hq, he⟩ := hex
    have hany : (centrifugeIdx path).any (fun q => is_empty fs q) = true :=
      List.any_eq_true.mpr ⟨q, hq, he⟩
    simp [mkBiofile, Biofile.validate, effectiveGzip, check_not_dir, hdir,
      check_file_not_empty, hany]
  · intro fs fs' b hk hq
    rcases b with ⟨kind, path, gz, pe, ext, v⟩
    cases hk
    have e1 := hq (add_suffix path ".1.cf") (by simp [centrifugeIdx])
    have e2 := hq (add_suffix path ".2.cf") (by simp [centrifugeIdx])
    have e3 := hq (add_suffix path ".3.cf") (by simp [centrifugeIdx])
    simp [check_file_not_empty, centrifugeIdx, e1, e2, e3]
  · intro fs path gz pe b h
    rw [mkBiofile_ok_state h]
    rfl

def b8 : BiofileState :=
  match mkBiofile fs8 .centrifugeDB "db" false false with
  | .ok b => b
  | .error _ => ⟨.centrifugeDB, "", false, false, "", false⟩

/-- Witness for the amended C8: from the successful concrete construction,
every sibling index file is non-empty. -/
theorem c8_amended_sibling_emptiness_witness :
    ∀ q ∈ centrifugeIdx "db", is_empty fs8 q = false :=
  c8_amended_sibling_emptiness.1 fs8 "db" false b8 rfl

lemma biofile_validate_ignores_flag (fs : Fs) (b : BiofileState) (v : Bool) :
    (Biofile.validate fs { b with validated := v }).2 =
      (Biofile.validate fs b).2 := by
  have c1 : check_not_dir fs { b with validated := v } = check_not_dir fs b := rfl
  have c2 : check_file_not_empty fs { b with validated := v } =
    check_file_not_empty fs b := rfl
  have c3 : check_gzip { b with validated := v } = check_gzip b := rfl
  have c4 : check_extension { b with validated := v } = check_extension b := rfl
  unfold Biofile.validate
  rw [c1, c2, c3, c4]
  rcases h1 : check_not_dir fs b with _ | e1
  · rcases h2 : check_file_not_empty fs b with _ | e2
    · rcases h3 : check_gzip b with _ | e3
      · rcases h4 : check_extension b with _ | e4
        · rfl
        · rfl
      · rfl
    · rfl
  · rfl

def fsDirAt : Fs := fun p => if p = "f.fq" then some ⟨true, 1⟩ else none
def b9 : BiofileState := ⟨.standard Fastq, "f.fq", false, false, ".fq", true⟩

/-- Claim C9 counterexample: a binding whose `validated` flag is already
set is fully re-checked by the next validate call — with the path now a
directory, the call raises instead of returning the stored Valid outcome. -/
theorem c9_memoization_counterexample :
    b9.validated = true ∧
    Biofile.validate fsDirAt b9 = (b9, some (VErr.DirectoryError "f.fq")) :=
  ⟨rfl, rfl⟩

/-- Claim C9 (amended): `Biofile.validate` has no memoized early return —
its outcome ignores the stored flag and is recomputed from the checks on
every call; consequently, under an unchanged filesystem, repeated calls
return the same outcome: re-validating a successfully validated state
returns the same success. -/
theorem c9_amended_validate_reruns :
    (∀ (fs : Fs) (b b' : BiofileState),
      Biofile.validate fs b = (b', none) → Biofile.validate fs b' = (b', none)) ∧
    (∀ (fs : Fs) (b : BiofileState) (v : Bool),
      (Biofile.validate fs { b with validated := v }).2 =
        (Biofile.validate fs b).2) := by
  constructor
  · intro fs b b' h
    obtain ⟨h1, h2, h3, h4⟩ := biofile_validate_ok_checks h
    have hb' := biofile_validate_ok_state h
    subst hb'
    exact validate_ok_of_checks fs _ h1 h2 h3 h4
  · exact biofile_validate_ignores_flag

def fs9ok : Fs := fun p => if p = "g.fq" then some ⟨false, 7⟩ else none
def b9ok : BiofileState := ⟨.standard Fastq, "g.fq", false, false, ".fq", false⟩

/-- Witness for the amended C9: re-validating an already-validated state
under the same filesystem returns the same success. -/
theorem c9_amended_validate_reruns_witness :
    Biofile.validate fs9ok ⟨.standard Fastq, "g.fq", false, false, ".fq", true⟩ =
      (⟨.standard Fastq, "g.fq", false, false, ".fq", true⟩, none) :=
  c9_amended_validate_reruns.1 fs9ok b9ok _ rfl

/-- Claim C10: in all three validators, the `validated` flag is assigned
only as the final step: a successful call returns the state with the flag
set, and a failing call leaves the flag exactly as it was (for a Biofile
the whole state is untouched, so a never-validated object stays
unvalidated). -/
theorem c10_validated_flag_discipline :
    (∀ (fs : Fs) (b : BiofileState),
      ((Biofile.validate fs b).2 = none →
        ((Biofile.validate fs b).1).validated = true) ∧
      (∀ e, (Biofile.validate fs b).2 = some e →
        (Biofile.validate fs b).1 = b)) ∧
    (∀ (fs : Fs) (g : BiofileGroupState),
      ((BiofileGroup.validate fs g).2 = none →
        ((BiofileGroup.validate fs g).1).validated = true) ∧
      (∀ e, (BiofileGroup.validate fs g).2 = some e →
        ((BiofileGroup.validate fs g).1).validated = g.validated)) ∧
    (∀ (fs : Fs) (m : MatchedPrefixGroupState),
      ((MatchedPrefixGroup.validate fs m).2 = none →
        ((MatchedPrefixGroup.validate fs m).1).validated = true) ∧
      (∀ e, (MatchedPrefixGroup.validate fs m).2 = some e →
        ((MatchedPrefixGroup.validate fs m).1).validated = m.validated)) := by
  refine ⟨?_, ?_, ?_⟩
  · intro fs b
    rcases biofile_validate_cases fs b with hc | ⟨e0, hc⟩ <;> rw [hc]
    · exact ⟨fun _ => rfl, fun e h => by simp at h⟩
    · exact ⟨fun h => by simp at h, fun e h => rfl⟩
  · intro fs g
    unfold BiofileGroup.validate
    split
    · exact ⟨fun h => by simp at h, fun e h => rfl⟩
    · split
      · split
        · exact ⟨fun _ => rfl, fun e h => by simp at h⟩
        · exact ⟨fun h => by simp at h, fun e h => rfl⟩
      · exact ⟨fun h => by simp at h, fun e h => rfl⟩
  · intro fs m
    unfold MatchedPrefixGroup.validate
    split
    · exact ⟨fun h => by simp at h, fun e h => rfl⟩
    · split
      · split
        · split
          · exact ⟨fun _ => rfl, fun e h => by simp at h⟩
          · split
            · exact ⟨fun _ => rfl, fun e h => by simp at h⟩
            · exact ⟨fun h => by simp at h, fun e h => rfl⟩
        · exact ⟨fun h => by simp at h, fun e h => rfl⟩
      · exact ⟨fun h => by simp at h, fun e h => rfl⟩

/-- Witness for C10 at a concrete successful validation. -/
theorem c10_validated_flag_discipline_witness :
    ((Biofile.validate fs9ok b9ok).1).validated = true :=
  (c10_validated_flag_discipline.1 fs9ok b9ok).1 rfl
